import Mathlib

/-!
Verification development for the build orchestration script `build.py`.

The two cores covered by the specification are embedded shallowly:

* the variant catalog (`chapter_to_build_variants`, `get_build_variants`,
  `get_chapter_name_from_git_tag`), and
* the remote-change cache (`LastModifiedManager`: construction from durable
  storage, `getRemoteLastModified`, `isRemoteModifiedAndUpdateMemory`, `save`).

Python dictionaries with string keys are modelled as insertion-ordered
association lists (`Dict`), with `dictGet`/`dictSet` mirroring `d.get(k)` and
`d[k] = v`.  The network is modelled as a function from URL to an optional
raw header value: `none` covers both a failed request and a missing
Last-Modified header (both raise in the Python code).  Durable storage is
modelled as an optional file content string; the flat string-to-string JSON
object written by `json.dump` and read back by `json.load` is modelled by an
executable encoder (`jsonDump`) and decoder (`jsonLoad`).
-/

/-- Insertion-ordered string-keyed map, modelling a Python `dict`. -/
abbrev Dict (α : Type) : Type := List (String × α)

instance {ε α : Type} [DecidableEq ε] [DecidableEq α] : DecidableEq (Except ε α) := fun a b =>
  match a, b with
  | Except.error e, Except.error f => decidable_of_iff (e = f) (by simp)
  | Except.ok x, Except.ok y => decidable_of_iff (x = y) (by simp)
  | Except.error _, Except.ok _ => isFalse (by simp)
  | Except.ok _, Except.error _ => isFalse (by simp)

/-- Lookup, modelling `d.get(k)` (first binding wins; `dictSet` keeps keys unique). -/
def dictGet {α : Type} : Dict α → String → Option α
  | [], _ => none
  | (k', v) :: rest, k => if k' = k then some v else dictGet rest k

/-- Update, modelling `d[k] = v`: replace in place if the key is present, else append. -/
def dictSet {α : Type} : Dict α → String → α → Dict α
  | [], k, v => [(k, v)]
  | (k', v') :: rest, k, v =>
    if k' = k then (k, v) :: rest else (k', v') :: dictSet rest k v

/-- The static chapter catalog from `build.py`, in declaration order. -/
def chapter_to_build_variants : Dict (List String) :=
  [ ("onikakushi",
      [ "onikakushi 5.2.2f1 win",
        "onikakushi 5.2.2f1 unix" ]),
    ("watanagashi",
      [ "watanagashi 5.2.2f1 win",
        "watanagashi 5.2.2f1 unix" ]),
    ("tatarigoroshi",
      [ "tatarigoroshi 5.4.0f1 win",
        "tatarigoroshi 5.4.0f1 unix",
        "tatarigoroshi 5.3.5f1 win",
        "tatarigoroshi 5.3.4p1 win",
        "tatarigoroshi 5.3.4p1 unix" ]),
    ("himatsubushi",
      [ "himatsubushi 5.4.1f1 win",
        "himatsubushi 5.4.1f1 unix" ]),
    ("meakashi",
      [ "meakashi 5.5.3p3 win",
        "meakashi 5.5.3p3 unix",
        "meakashi 5.5.3p1 win",
        "meakashi 5.5.3p1 unix" ]),
    ("tsumihoroboshi",
      [ "tsumihoroboshi 5.5.3p3 win",
        "tsumihoroboshi 5.5.3p3 unix" ]),
    ("minagoroshi",
      [ "minagoroshi 5.6.7f1 win",
        "minagoroshi 5.6.7f1 unix" ]),
    ("matsuribayashi",
      [ "matsuribayashi 2017.2.5 unix",
        "matsuribayashi 2017.2.5 unix 51100D6D",
        "matsuribayashi 2017.2.5 win" ]),
    ("rei",
      [ "rei 2019.4.3 win",
        "rei 2019.4.3 unix" ]) ]

/-- The error message raised by `get_build_variants` for an unknown chapter. -/
def unknownChapterMessage (selected_chapter : String) : String :=
  "Unknown Chapter " ++ selected_chapter ++ " - please update the build.py script"

/-- Embedding of `get_build_variants`: "all" concatenates every list via
`commands.extend`; a chapter key returns its list; anything else raises. -/
def get_build_variants (selected_chapter : String) : Except String (List String) :=
  if selected_chapter = "all" then
    Except.ok (chapter_to_build_variants.foldl (fun commands p => commands ++ p.2) [])
  else
    match dictGet chapter_to_build_variants selected_chapter with
    | some variants => Except.ok variants
    | none => Except.error (unknownChapterMessage selected_chapter)

/-- Split a character list at every separator character, keeping empty
fragments, as Python `re.split` with a single-character class does. -/
def splitFrags (sepa : Char → Bool) : List Char → List (List Char)
  | [] => [[]]
  | c :: cs =>
    let rest := splitFrags sepa cs
    if sepa c then [] :: rest
    else
      match rest with
      | [] => [[c]]
      | frag :: frags => (c :: frag) :: frags

/-- Python `[\W_]` in `re.split("[\W_]", GIT_REF)`: any character that is not
alphanumeric separates (`\W` excludes the underscore from word characters, and
the class adds the underscore back as a separator).  ASCII approximation of
the Python word-character classes. -/
def pySplitSep (c : Char) : Bool := !c.isAlphanum

/-- Python `str.lower()` (ASCII approximation, matching the catalog keys and
the "all" literal, which are all ASCII). -/
def pyLower (s : String) : String :=
  String.mk (s.data.map Char.toLower)

/-- The lowercased fragment list computed by `get_chapter_name_from_git_tag`. -/
def tagFragments (gitRef : String) : List String :=
  (splitFrags pySplitSep gitRef.data).map (fun f => pyLower (String.mk f))

/-- The `for chapter_name in chapter_to_build_variants.keys()` loop: first key
whose lowercased form is among the fragments. -/
def findChapterIn (tag_fragments : List String) : Dict (List String) → Option String
  | [] => none
  | (chapter_name, _) :: rest =>
    if tag_fragments.contains (pyLower chapter_name) then some chapter_name
    else findChapterIn tag_fragments rest

/-- Embedding of `get_chapter_name_from_git_tag` (on the branch where a tag is
set), applied to the string it splits. -/
def get_chapter_name_from_git_tag (gitRef : String) : Option String :=
  let tag_fragments := tagFragments gitRef
  if tag_fragments.contains "all" then some "all"
  else findChapterIn tag_fragments chapter_to_build_variants

/-- Claim C2 as its sentence reads: the separators are the characters that are
neither alphanumeric nor underscore, so an underscore does NOT split.  Written
from the claim text, to be compared with `get_chapter_name_from_git_tag`. -/
def resolveFromTagClaim (tag : String) : Option String :=
  let fragments :=
    (splitFrags (fun c => !c.isAlphanum && !(c = '_')) tag.data).map
      (fun f => pyLower (String.mk f))
  if fragments.contains "all" then some "all"
  else
    ((chapter_to_build_variants.map Prod.fst).filter
      (fun name => fragments.contains (pyLower name))).head?

/-- Claim C2 amended: identical except that the split is on every
non-alphanumeric character, the underscore included.  Written from the amended
claim text, structured as the claim describes (first catalog key, in
declaration order, whose lowercased form occurs among the fragments). -/
def resolveFromTagAmended (tag : String) : Option String :=
  let fragments :=
    (splitFrags (fun c => !c.isAlphanum) tag.data).map
      (fun f => pyLower (String.mk f))
  if fragments.contains "all" then some "all"
  else
    ((chapter_to_build_variants.map Prod.fst).filter
      (fun name => fragments.contains (pyLower name))).head?

/-- Hex digit character for a value below 16, lowercase as written by the
JSON serializer. -/
def toHexDigit (n : Nat) : Char :=
  if n < 10 then Char.ofNat (48 + n) else Char.ofNat (87 + n)

/-- Inverse of `toHexDigit`, accepting both letter cases. -/
def fromHexDigit (c : Char) : Option Nat :=
  if 48 ≤ c.toNat ∧ c.toNat ≤ 57 then some (c.toNat - 48)
  else if 97 ≤ c.toNat ∧ c.toNat ≤ 102 then some (c.toNat - 87)
  else if 65 ≤ c.toNat ∧ c.toNat ≤ 70 then some (c.toNat - 55)
  else none

/-- JSON escaping of one character inside a string literal: quote and
backslash get a backslash escape, control characters a four-digit hex escape,
everything else is written literally. -/
def encodeChar (c : Char) : List Char :=
  if c = '"' then ['\\', '"']
  else if c = '\\' then ['\\', '\\']
  else if c.toNat < 32 then
    ['\\', 'u', '0', '0', toHexDigit (c.toNat / 16), toHexDigit (c.toNat % 16)]
  else [c]

/-- JSON encoding of the characters of a string literal body. -/
def encodeStringBody : List Char → List Char
  | [] => []
  | c :: cs => encodeChar c ++ encodeStringBody cs

/-- A complete JSON string literal, quotes included. -/
def encodeJsonString (s : String) : List Char :=
  '"' :: encodeStringBody s.data ++ ['"']

/-- The members of a flat JSON object, separated by the default `json.dump`
separators `", "` and `": "`. -/
def encodePairsBody : Dict String → List Char
  | [] => []
  | [(k, v)] => encodeJsonString k ++ ':' :: ' ' :: encodeJsonString v
  | (k, v) :: kv2 :: rest =>
    encodeJsonString k ++ ':' :: ' ' :: encodeJsonString v ++
      ',' :: ' ' :: encodePairsBody (kv2 :: rest)

/-- Model of `json.dump(self.lastModifiedDict, handle)`: the serialized form
of a flat string-to-string object. -/
def jsonDump (d : Dict String) : String :=
  String.mk ('{' :: encodePairsBody d ++ ['}'])

/-- The character denoted by a simple (single-letter) JSON escape, if the
letter is one. -/
def simpleEscape (e : Char) : Option Char :=
  if e = '"' then some '"'
  else if e = '\\' then some '\\'
  else if e = '/' then some '/'
  else if e = 'n' then some '\n'
  else if e = 't' then some '\t'
  else if e = 'r' then some '\r'
  else if e = 'b' then some (Char.ofNat 8)
  else if e = 'f' then some (Char.ofNat 12)
  else none

/-- Parse the body of a JSON string literal up to its closing quote, returning
the decoded characters and the unconsumed input.  The fuel argument only
bounds the recursion depth; one unit per decoded character suffices, and
`parseJsonString` below supplies enough for any input. -/
def parseStringBody : Nat → List Char → Option (List Char × List Char)
  | 0, _ => none
  | fuel + 1, l =>
    match l with
    | [] => none
    | c :: rest =>
      if c = '"' then some ([], rest)
      else if c = '\\' then
        match rest with
        | [] => none
        | e :: rest1 =>
          match simpleEscape e with
          | some decoded => (parseStringBody fuel rest1).map (fun p => (decoded :: p.1, p.2))
          | none =>
            if e = 'u' then
              match rest1 with
              | h1 :: h2 :: h3 :: h4 :: rest2 =>
                match fromHexDigit h1, fromHexDigit h2, fromHexDigit h3, fromHexDigit h4 with
                | some a, some b, some c1, some d =>
                  (parseStringBody fuel rest2).map
                    (fun p => (Char.ofNat (((a * 16 + b) * 16 + c1) * 16 + d) :: p.1, p.2))
                | _, _, _, _ => none
              | _ => none
            else none
      else (parseStringBody fuel rest).map (fun p => (c :: p.1, p.2))

/-- Parse a JSON string literal body with the fuel that always suffices: the
recursion consumes at least one character per unit of fuel, and the closing
quote is never consumed by a recursive step. -/
def parseJsonString (l : List Char) : Option (List Char × List Char) :=
  parseStringBody l.length l

/-- Parse one `"key": "value"` member of the object. -/
def parsePair (l : List Char) : Option ((String × String) × List Char) :=
  match l with
  | '"' :: rest =>
    match parseJsonString rest with
    | some (k, ':' :: ' ' :: '"' :: rest1) =>
      (parseJsonString rest1).map (fun p => ((String.mk k, String.mk p.1), p.2))
    | _ => none
  | _ => none

/-- Parse a nonempty `", "`-separated member list, with fuel bounding the
number of members. -/
def parseMembers : Nat → List Char → Option (Dict String × List Char)
  | 0, _ => none
  | fuel + 1, l =>
    match parsePair l with
    | some (kv, ',' :: ' ' :: rest) =>
      (parseMembers fuel rest).map (fun p => (kv :: p.1, p.2))
    | some (kv, rest) => some ([kv], rest)
    | none => none

/-- Parse a whole flat string-to-string JSON object from a character list,
requiring full consumption of the input. -/
def jsonLoadChars (l : List Char) : Option (Dict String) :=
  match l with
  | '{' :: '}' :: rest => if rest = [] then some [] else none
  | '{' :: rest =>
    match parseMembers (rest.length + 1) rest with
    | some (d, '}' :: rest1) => if rest1 = [] then some d else none
    | _ => none
  | _ => none

/-- Model of `json.load(handle)` for a flat string-to-string object. -/
def jsonLoad (s : String) : Option (Dict String) :=
  jsonLoadChars s.data

/-- State of a `LastModifiedManager` instance together with the durable store
it persists to: `lastModifiedDict` is the in-memory url-to-timestamp map, and
`store` the content of `lastModified.json` (`none` when the file does not
exist). -/
structure CacheState where
  lastModifiedDict : Dict String
  store : Option String
  deriving DecidableEq

/-- Embedding of `LastModifiedManager.__init__`: start from an empty dict and,
when the durable store exists, replace it by the parsed store content.  A
store that fails to parse is a `StorageError`, modelled as `none`. -/
def initLastModifiedManager (store : Option String) : Option CacheState :=
  match store with
  | none => some { lastModifiedDict := [], store := none }
  | some content =>
    (jsonLoad content).map (fun d => { lastModifiedDict := d, store := some content })

/-- Python `str.strip()` with no argument: remove leading and trailing
whitespace (ASCII approximation). -/
def pyStrip (s : String) : String :=
  String.mk (((s.data.dropWhile Char.isWhitespace).reverse.dropWhile Char.isWhitespace).reverse)

/-- Embedding of `LastModifiedManager.getRemoteLastModified`: the network is a
function from URL to the optional raw Last-Modified header; `none` models both
a failed request and a missing header (each raises in Python), and a present
header is returned stripped. -/
def getRemoteLastModified (net : String → Option String) (url : String) : Option String :=
  (net url).map pyStrip

/-- The body of `isRemoteModifiedAndUpdateMemory` after the fetch, on the
in-memory dict alone: compare the stored value with the fetched one, record
the fetched value unless they match, and report whether a change was seen. -/
def isRemoteModifiedCore (d : Dict String) (url remoteLastModified : String) :
    Bool × Dict String :=
  match dictGet d url with
  | some localLastModified =>
    if localLastModified = remoteLastModified then (false, d)
    else (true, dictSet d url remoteLastModified)
  | none => (true, dictSet d url remoteLastModified)

/-- Embedding of `LastModifiedManager.isRemoteModifiedAndUpdateMemory` as a
state transition: fetch first (an exception there propagates with the state
untouched), then compare and record in memory only. -/
def isRemoteModifiedAndUpdateMemory (net : String → Option String) (s : CacheState)
    (url : String) : Except Unit Bool × CacheState :=
  match getRemoteLastModified net url with
  | none => (Except.error (), s)
  | some remoteLastModified =>
    let r := isRemoteModifiedCore s.lastModifiedDict url remoteLastModified
    (Except.ok r.1, { s with lastModifiedDict := r.2 })

/-- Embedding of `LastModifiedManager.save`: serialize the in-memory dict over
the durable store. -/
def saveLastModified (s : CacheState) : CacheState :=
  { s with store := some (jsonDump s.lastModifiedDict) }

/-! ## Helper lemmas about the dict model -/

theorem dictGet_dictSet_self {α : Type} (d : Dict α) (k : String) (v : α) :
    dictGet (dictSet d k v) k = some v := by
  induction d with
  | nil => simp [dictGet, dictSet]
  | cons p rest ih =>
    obtain ⟨k1, v1⟩ := p
    by_cases h : k1 = k
    · simp [dictGet, dictSet, h]
    · simp [dictGet, dictSet, h, ih]

theorem dictGet_dictSet_ne {α : Type} (d : Dict α) (k q : String) (v : α) (h : q ≠ k) :
    dictGet (dictSet d k v) q = dictGet d q := by
  have hk : ¬k = q := fun hkq => h hkq.symm
  induction d with
  | nil => simp [dictGet, dictSet, hk]
  | cons p rest ih =>
    obtain ⟨k1, v1⟩ := p
    by_cases h1 : k1 = k
    · subst h1
      simp [dictGet, dictSet, hk]
    · simp [dictGet, dictSet, h1, ih]

theorem isRemoteModifiedCore_spec (d : Dict String) (url remote : String) :
    isRemoteModifiedCore d url remote =
      if dictGet d url = some remote then (false, d) else (true, dictSet d url remote) := by
  unfold isRemoteModifiedCore
  cases h : dictGet d url with
  | none => simp [h]
  | some v =>
    by_cases hv : v = remote
    · simp [h, hv]
    · simp [h, hv]

theorem dictGet_isRemoteModifiedCore_self (d : Dict String) (url remote : String) :
    dictGet (isRemoteModifiedCore d url remote).2 url = some remote := by
  rw [isRemoteModifiedCore_spec]
  by_cases h : dictGet d url = some remote
  · simp [h]
  · simp [h, dictGet_dictSet_self]

theorem isRemoteModifiedCore_of_get_eq (d : Dict String) (url remote : String)
    (h : dictGet d url = some remote) :
    isRemoteModifiedCore d url remote = (false, d) := by
  rw [isRemoteModifiedCore_spec, if_pos h]

theorem isRemoteModifiedAndUpdateMemory_ok (net : String → Option String) (s : CacheState)
    (url raw : String) (h : net url = some raw) :
    isRemoteModifiedAndUpdateMemory net s url =
      (Except.ok (isRemoteModifiedCore s.lastModifiedDict url (pyStrip raw)).1,
       { s with lastModifiedDict := (isRemoteModifiedCore s.lastModifiedDict url (pyStrip raw)).2 }) := by
  simp [isRemoteModifiedAndUpdateMemory, getRemoteLastModified, h]

/-! ## Claims about the remote-change cache -/

/-- C1: `isRemoteModifiedAndUpdateMemory` returns `false` and leaves the
in-memory dict unchanged exactly when a previously recorded timestamp for the
url exists and is string-equal to the freshly fetched (stripped) remote
timestamp; in every other case it overwrites the entry for the url with the
fetched value and returns `true`. -/
theorem checkAndRecord_change_detection (net : String → Option String) (s : CacheState)
    (url raw : String) (h : net url = some raw) :
    (isRemoteModifiedAndUpdateMemory net s url =
      if dictGet s.lastModifiedDict url = some (pyStrip raw)
      then (Except.ok false, s)
      else (Except.ok true,
            { s with lastModifiedDict := dictSet s.lastModifiedDict url (pyStrip raw) })) ∧
    ((isRemoteModifiedAndUpdateMemory net s url).1 = Except.ok false ↔
      dictGet s.lastModifiedDict url = some (pyStrip raw)) := by
  rw [isRemoteModifiedAndUpdateMemory_ok net s url raw h, isRemoteModifiedCore_spec]
  by_cases hc : dictGet s.lastModifiedDict url = some (pyStrip raw)
  · simp [hc]
  · simp [hc]

theorem checkAndRecord_change_detection_witness :
    ((fun _ : String => some " T1 ") "u" = some " T1 ") ∧
    ((isRemoteModifiedAndUpdateMemory (fun _ => some " T1 ") ⟨[("u", "T1")], none⟩ "u" =
        if dictGet [("u", "T1")] "u" = some (pyStrip " T1 ")
        then (Except.ok false, ⟨[("u", "T1")], none⟩)
        else (Except.ok true, ⟨dictSet [("u", "T1")] "u" (pyStrip " T1 "), none⟩)) ∧
      ((isRemoteModifiedAndUpdateMemory (fun _ => some " T1 ") ⟨[("u", "T1")], none⟩ "u").1 =
          Except.ok false ↔
        dictGet [("u", "T1")] "u" = some (pyStrip " T1 "))) :=
  ⟨rfl, checkAndRecord_change_detection _ _ _ _ rfl⟩

/-- C3: when the metadata fetch fails (no response or no Last-Modified header,
both modelled by `net url = none`), the error propagates and the cache state,
in particular the whole in-memory dict, is exactly as before the call. -/
theorem checkAndRecord_network_failure_frame (net : String → Option String) (s : CacheState)
    (url : String) (h : net url = none) :
    isRemoteModifiedAndUpdateMemory net s url = (Except.error (), s) := by
  simp [isRemoteModifiedAndUpdateMemory, getRemoteLastModified, h]

theorem checkAndRecord_network_failure_frame_witness :
    ((fun _ : String => (none : Option String)) "http://07th-mod.com/archive/vanilla.7z" = none) ∧
    isRemoteModifiedAndUpdateMemory (fun _ => none) ⟨[("u", "T1")], none⟩
        "http://07th-mod.com/archive/vanilla.7z" =
      (Except.error (), ⟨[("u", "T1")], none⟩) :=
  ⟨rfl, checkAndRecord_network_failure_frame _ _ _ rfl⟩

/-- C5: two consecutive calls with the remote unchanged in between (the same
`net`, answering successfully): the second call returns `false`, whatever the
first returned, because the first call left the in-memory entry equal to the
remote value. -/
theorem checkAndRecord_twice_second_false (net : String → Option String) (s : CacheState)
    (url raw : String) (h : net url = some raw) :
    (isRemoteModifiedAndUpdateMemory net (isRemoteModifiedAndUpdateMemory net s url).2 url).1 =
      Except.ok false := by
  rw [isRemoteModifiedAndUpdateMemory_ok net s url raw h,
    isRemoteModifiedAndUpdateMemory_ok net _ url raw h]
  simp [isRemoteModifiedCore_of_get_eq _ _ _
    (dictGet_isRemoteModifiedCore_self s.lastModifiedDict url (pyStrip raw))]

theorem checkAndRecord_twice_second_false_witness :
    ((fun _ : String => some "T2") "u" = some "T2") ∧
    (isRemoteModifiedAndUpdateMemory (fun _ => some "T2")
        (isRemoteModifiedAndUpdateMemory (fun _ => some "T2") ⟨[("u", "T1")], none⟩ "u").2
        "u").1 = Except.ok false :=
  ⟨rfl, checkAndRecord_twice_second_false _ _ _ _ rfl⟩

/-- C9: constructing the manager when no durable store exists succeeds (no
error) and yields an empty in-memory mapping. -/
theorem load_without_store_empty :
    initLastModifiedManager none = some { lastModifiedDict := [], store := none } := rfl

/-- C10: `isRemoteModifiedAndUpdateMemory` leaves the in-memory entry of every
other url unchanged and never touches the durable store. -/
theorem checkAndRecord_frame (net : String → Option String) (s : CacheState)
    (url u2 : String) (h : u2 ≠ url) :
    dictGet (isRemoteModifiedAndUpdateMemory net s url).2.lastModifiedDict u2 =
      dictGet s.lastModifiedDict u2 ∧
    (isRemoteModifiedAndUpdateMemory net s url).2.store = s.store := by
  cases hn : net url with
  | none => simp [isRemoteModifiedAndUpdateMemory, getRemoteLastModified, hn]
  | some raw =>
    rw [isRemoteModifiedAndUpdateMemory_ok net s url raw hn]
    refine ⟨?_, rfl⟩
    rw [isRemoteModifiedCore_spec]
    by_cases hc : dictGet s.lastModifiedDict url = some (pyStrip raw)
    · simp [hc]
    · simp [hc, dictGet_dictSet_ne _ _ _ _ h]

theorem checkAndRecord_frame_witness :
    ("a" : String) ≠ "u" ∧
    (dictGet (isRemoteModifiedAndUpdateMemory (fun _ => some "T2")
          ⟨[("a", "x"), ("u", "T1")], none⟩ "u").2.lastModifiedDict "a" =
        dictGet [("a", "x"), ("u", "T1")] "a" ∧
      (isRemoteModifiedAndUpdateMemory (fun _ => some "T2")
          ⟨[("a", "x"), ("u", "T1")], none⟩ "u").2.store = none) :=
  ⟨by decide, checkAndRecord_frame _ _ _ _ (by decide)⟩

/-! ## Claims about the variant catalog -/

theorem foldl_extend_eq_flatten (l : List (String × List String)) (init : List String) :
    l.foldl (fun commands p => commands ++ p.2) init = init ++ (l.map Prod.snd).flatten := by
  induction l generalizing init with
  | nil => simp
  | cons p rest ih => simp [List.foldl, ih]

/-- C6: `get_build_variants "all"` returns exactly the concatenation, in
catalog-declaration order, of the variant list of every chapter, and its
length is the sum of the lengths of all chapter lists. -/
theorem resolve_all_concatenation :
    get_build_variants "all" = Except.ok ((chapter_to_build_variants.map Prod.snd).flatten) ∧
    ((chapter_to_build_variants.map Prod.snd).flatten).length =
      ((chapter_to_build_variants.map Prod.snd).map List.length).sum := by
  refine ⟨?_, List.length_flatten _⟩
  simp [get_build_variants, foldl_extend_eq_flatten]

/-- C7: for every chapter of the catalog, `get_build_variants` on its name
returns exactly its declared variant list, which is non-empty. -/
theorem resolve_chapter_declared_list :
    ∀ p ∈ chapter_to_build_variants, get_build_variants p.1 = Except.ok p.2 ∧ p.2 ≠ [] := by
  decide

theorem resolve_chapter_declared_list_witness :
    (("onikakushi", ["onikakushi 5.2.2f1 win", "onikakushi 5.2.2f1 unix"]) :
        String × List String) ∈ chapter_to_build_variants ∧
    (get_build_variants "onikakushi" =
        Except.ok ["onikakushi 5.2.2f1 win", "onikakushi 5.2.2f1 unix"] ∧
      (["onikakushi 5.2.2f1 win", "onikakushi 5.2.2f1 unix"] : List String) ≠ []) :=
  ⟨by decide,
    resolve_chapter_declared_list
      ("onikakushi", ["onikakushi 5.2.2f1 win", "onikakushi 5.2.2f1 unix"]) (by decide)⟩

/-- C8: for a selection that is neither "all" nor a catalog key,
`get_build_variants` fails with the unknown-chapter error and returns no list. -/
theorem resolve_unknown_chapter_error (x : String) (h1 : x ≠ "all")
    (h2 : dictGet chapter_to_build_variants x = none) :
    get_build_variants x = Except.error (unknownChapterMessage x) := by
  simp [get_build_variants, h1, h2]

theorem resolve_unknown_chapter_error_witness :
    ("github_actions" : String) ≠ "all" ∧
    dictGet chapter_to_build_variants "github_actions" = none ∧
    get_build_variants "github_actions" =
      Except.error (unknownChapterMessage "github_actions") :=
  ⟨by decide, by decide, resolve_unknown_chapter_error _ (by decide) (by decide)⟩

/-! ## Claims about tag resolution -/

theorem findChapterIn_eq_find (frags : List String) (l : Dict (List String)) :
    findChapterIn frags l =
      (l.map Prod.fst).find? (fun name => frags.contains (pyLower name)) := by
  induction l with
  | nil => rfl
  | cons p rest ih =>
    obtain ⟨name, v⟩ := p
    by_cases h : pyLower name ∈ frags
    · simp [findChapterIn, h, List.find?_cons_of_pos]
    · simp [findChapterIn, h, List.find?_cons_of_neg, ih]

/-- C2, counterexample to the claim as stated: on the tag string "v1_all" the
code splits at the underscore (Python class `[\W_]`) and returns the "all"
token, while the splitting rule stated by the claim (separators are the characters that
are neither alphanumeric nor underscore) keeps "v1_all" as one fragment and so
predicts that no chapter and no "all" is found. -/
theorem resolveFromTag_claim_counterexample :
    get_chapter_name_from_git_tag "v1_all" = some "all" ∧
    resolveFromTagClaim "v1_all" = none := by
  decide

/-- C2 as amended: with the split boundary being every non-alphanumeric
character (the underscore included), `get_chapter_name_from_git_tag` lowers
the fragments, returns the "all" token if some fragment is "all", otherwise
the first catalog chapter (in declaration order) whose lowercased name occurs
among the fragments, and absent (`none`, never an error) otherwise. -/
theorem resolveFromTag_amended_correct (tag : String) :
    get_chapter_name_from_git_tag tag = resolveFromTagAmended tag := by
  have hsep : pySplitSep = (fun c => !c.isAlphanum) := rfl
  simp [get_chapter_name_from_git_tag, resolveFromTagAmended, tagFragments, hsep,
    findChapterIn_eq_find]

/-! ## The JSON round-trip and claim C4 -/

theorem fromHexDigit_toHexDigit : ∀ k < 16, fromHexDigit (toHexDigit k) = some k := by
  decide

theorem le_length_encodeChar (c : Char) : 1 ≤ (encodeChar c).length := by
  unfold encodeChar
  split_ifs <;> simp

theorem le_length_encodeStringBody (cs : List Char) :
    cs.length ≤ (encodeStringBody cs).length := by
  induction cs with
  | nil => simp [encodeStringBody]
  | cons c cs ih =>
    have := le_length_encodeChar c
    simp only [encodeStringBody, List.length_append, List.length_cons]
    omega

theorem parseStringBody_encodeChar (fuel : Nat) (c : Char) (rest : List Char) :
    parseStringBody (fuel + 1) (encodeChar c ++ rest) =
      (parseStringBody fuel rest).map (fun p => (c :: p.1, p.2)) := by
  by_cases hq : c = '"'
  · subst hq
    simp [encodeChar, parseStringBody, simpleEscape]
  · by_cases hb : c = '\\'
    · subst hb
      simp [encodeChar, parseStringBody, simpleEscape]
    · by_cases hc : c.toNat < 32
      · have h1 : fromHexDigit (toHexDigit (c.toNat / 16)) = some (c.toNat / 16) :=
          fromHexDigit_toHexDigit _ (by omega)
        have h2 : fromHexDigit (toHexDigit (c.toNat % 16)) = some (c.toNat % 16) :=
          fromHexDigit_toHexDigit _ (by omega)
        have h0 : fromHexDigit '0' = some 0 := rfl
        have h3 : c.toNat / 16 * 16 + c.toNat % 16 = c.toNat := by omega
        simp [encodeChar, hq, hb, hc, parseStringBody, simpleEscape, h0, h1, h2, h3,
          Char.ofNat_toNat]
      · simp [encodeChar, hq, hb, hc, parseStringBody]

theorem parseStringBody_encode (cs rest : List Char) :
    ∀ fuel, cs.length < fuel →
      parseStringBody fuel (encodeStringBody cs ++ '"' :: rest) = some (cs, rest) := by
  induction cs with
  | nil =>
    intro fuel hf
    cases fuel with
    | zero => omega
    | succ f => simp [encodeStringBody, parseStringBody]
  | cons c cs ih =>
    intro fuel hf
    cases fuel with
    | zero => omega
    | succ f =>
      have hrec := ih f (by simp only [List.length_cons] at hf; omega)
      simp [encodeStringBody, List.append_assoc, parseStringBody_encodeChar, hrec]

theorem parseJsonString_encode (cs rest : List Char) :
    parseJsonString (encodeStringBody cs ++ '"' :: rest) = some (cs, rest) := by
  unfold parseJsonString
  apply parseStringBody_encode
  have := le_length_encodeStringBody cs
  simp only [List.length_append, List.length_cons]
  omega

theorem stringMk_data (s : String) : String.mk s.data = s := rfl

theorem parsePair_encode (k v : String) (rest : List Char) :
    parsePair (encodeJsonString k ++ ':' :: ' ' :: (encodeJsonString v ++ rest)) =
      some ((k, v), rest) := by
  simp [parsePair, encodeJsonString, List.append_assoc, parseJsonString_encode,
    stringMk_data]

theorem le_length_encodePairsBody (d : Dict String) :
    d.length ≤ (encodePairsBody d).length := by
  induction d with
  | nil => simp [encodePairsBody]
  | cons kv tl ih =>
    obtain ⟨k, v⟩ := kv
    cases tl with
    | nil =>
      simp only [encodePairsBody, encodeJsonString, List.length_append, List.length_cons,
        List.length_nil]
      omega
    | cons kv2 tl2 =>
      simp only [List.length_cons] at ih ⊢
      simp only [encodePairsBody, encodeJsonString, List.length_append, List.length_cons]
      omega

theorem parseMembers_encode (d : Dict String) (tail : List Char) :
    ∀ fuel, d ≠ [] → d.length ≤ fuel →
      parseMembers fuel (encodePairsBody d ++ '}' :: tail) = some (d, '}' :: tail) := by
  induction d with
  | nil => exact fun fuel h _ => absurd rfl h
  | cons kv tl ih =>
    intro fuel _ hlen
    obtain ⟨k, v⟩ := kv
    cases fuel with
    | zero => simp at hlen
    | succ f =>
      cases tl with
      | nil =>
        simp [parseMembers, encodePairsBody, List.append_assoc, parsePair_encode]
      | cons kv2 tl2 =>
        have ih2 := ih f (by simp) (by simp only [List.length_cons] at hlen ⊢; omega)
        simp [parseMembers, encodePairsBody, List.append_assoc, parsePair_encode, ih2]

theorem jsonLoadChars_encode (d : Dict String) (hne : d ≠ []) :
    jsonLoadChars ('{' :: (encodePairsBody d ++ ['}'])) = some d := by
  have hle : d.length ≤ (encodePairsBody d ++ ['}']).length + 1 := by
    have := le_length_encodePairsBody d
    simp only [List.length_append, List.length_cons, List.length_nil]
    omega
  have hmem := parseMembers_encode d [] ((encodePairsBody d ++ ['}']).length + 1) hne hle
  match d, hne with
  | (k, v) :: tl, _ =>
    have hY : ∃ Y, encodePairsBody ((k, v) :: tl) = '"' :: Y := by
      cases tl <;> exact ⟨_, rfl⟩
    obtain ⟨Y, hYe⟩ := hY
    rw [hYe] at hmem ⊢
    simp at hmem
    simp [jsonLoadChars, hmem]

theorem jsonLoad_jsonDump (d : Dict String) : jsonLoad (jsonDump d) = some d := by
  cases d with
  | nil => rfl
  | cons kv tl => exact jsonLoadChars_encode (kv :: tl) (by simp)

/-- C4: saving the in-memory mapping and constructing a fresh manager from the
resulting durable store succeeds and reproduces exactly the saved
url-to-timestamp mapping. -/
theorem save_load_roundtrip (s : CacheState) :
    (initLastModifiedManager (saveLastModified s).store).map CacheState.lastModifiedDict =
      some s.lastModifiedDict := by
  simp [saveLastModified, initLastModifiedManager, jsonLoad_jsonDump]
